import Mathlib

/-!
Verification of the text-classification service of the `tracker` repository
(`ml-service`). The Python sources are shallowly embedded as executable Lean
definitions:

* `preprocess_text`, `combine_features` — the Text Normalizer shared by
  `MLService` (services/ml_service.py) and `ExpenseClassifier`
  (models/expense_classifier.py); the two Python copies are identical, so a
  single definition embeds both.
* `fallback_categorization` — `MLService.fallback_categorization`.
* `categorize` — `MLService.categorize`, with the opaque trained
  model/vectorizer pipeline abstracted as an `Except`-valued inference
  function (any exception the sklearn calls may raise is an `Except.error`).
* `train_model` — `MLService.train_model` as a state transformer.
* `load_model` — `MLService.load_model` as a state transformer over the
  possible I/O outcomes.
* `bulk_categorize` — the batch loop of app.py, and `predict_batch` — the
  batch loop of `ExpenseClassifier`.

Python strings are embedded as Lean `String`/`List Char`; optional or
possibly-missing values as `Option`; Python floats as `ℚ` (all constants
involved — 0.7, 0.3, 0.1, 0.2 — are exact decimals); raised exceptions as
`Except.error`.  Character-level operations (`str.lower`, the `[^a-zA-Z0-9\s]`
regex, `str.split`) are modelled on their ASCII behaviour, which covers every
constant appearing in the program and the claims.
-/

/-! ## Character-level primitives -/

/-- Python `str.lower` on an ASCII character: map `A`–`Z` (code points
65–90) to `a`–`z` (code points 97–122). -/
def pyLower (c : Char) : Char :=
  if 65 ≤ c.toNat ∧ c.toNat ≤ 90 then Char.ofNat (c.toNat + 32) else c

/-- ASCII alphanumeric: the class `[a-zA-Z0-9]` of the cleaning regex
(code points 97–122, 65–90, 48–57). -/
def isAlnum (c : Char) : Bool :=
  (97 ≤ c.toNat && c.toNat ≤ 122) || (65 ≤ c.toNat && c.toNat ≤ 90) ||
    (48 ≤ c.toNat && c.toNat ≤ 57)

/-- The ASCII whitespace characters recognised by Python's `\s` regex class
and by `str.split()`: space, tab, newline, vertical tab, form feed,
carriage return. -/
def isPySpace (c : Char) : Bool :=
  c == ' ' || c == '\t' || c == '\n' || c == '\x0b' || c == '\x0c' || c == '\r'

/-- `re.sub(r'[^a-zA-Z0-9\s]', ' ', text)`: every character that is not
alphanumeric and not whitespace becomes a space. -/
def subNonAlnum (cs : List Char) : List Char :=
  cs.map (fun c => if isAlnum c || isPySpace c then c else ' ')

/-- Helper of `pySplit`: the current (reversed) token is accumulated in
`acc` and flushed at each whitespace character and at the end. -/
def splitAux : List Char → List Char → List (List Char)
  | [], acc => if acc.isEmpty then [] else [acc.reverse]
  | c :: cs, acc =>
    if isPySpace c then
      if acc.isEmpty then splitAux cs [] else acc.reverse :: splitAux cs []
    else splitAux cs (c :: acc)

/-- Python `text.split()` (no argument): split on runs of whitespace,
discarding empty tokens. -/
def pySplit (cs : List Char) : List (List Char) :=
  splitAux cs []

/-- Python `' '.join(tokens)`: interleave a single space between tokens. -/
def joinSp : List (List Char) → List Char
  | [] => []
  | [t] => t
  | t :: u :: ts => t ++ ' ' :: joinSp (u :: ts)

/-- Python `str.lstrip()` on whitespace (used for trimming). -/
def trimL (cs : List Char) : List Char :=
  cs.dropWhile isPySpace

/-- Python `str.rstrip()` on whitespace (used for trimming). -/
def trimR (cs : List Char) : List Char :=
  (cs.reverse.dropWhile isPySpace).reverse

/-- Python `text.strip()`: drop leading and trailing whitespace. -/
def pyStrip (s : String) : String :=
  String.mk (trimR (trimL s.toList))

/-! ## Configuration (config.py, environment defaults) -/

namespace Config

/-- `MAX_TEXT_LENGTH` default (config.py line 32). -/
def MAX_TEXT_LENGTH : Nat := 500

/-- `MIN_TRAINING_SAMPLES` default (config.py line 29). -/
def MIN_TRAINING_SAMPLES : Nat := 100

/-- `MODEL_VERSION` default (config.py line 18). -/
def MODEL_VERSION : String := "1.0.0"

/-- `DEFAULT_CATEGORIES` (config.py lines 37-50). -/
def DEFAULT_CATEGORIES : List String :=
  ["Food & Dining", "Transportation", "Shopping", "Entertainment",
   "Bills & Utilities", "Healthcare", "Travel", "Education",
   "Personal Care", "Gifts & Donations", "Business", "Other"]

end Config

/-! ## Text Normalizer -/

/-- Body of `preprocess_text` for a non-empty input string, parametric in the
configured maximum length. Mirrors, in order: lower-case; replace every
character outside `[a-zA-Z0-9\s]` by a space; `' '.join(text.split())`;
truncate when longer than `maxLen`. -/
def preprocessChars (maxLen : Nat) (cs : List Char) : List Char :=
  let cs := cs.map pyLower
  let cs := subNonAlnum cs
  let cs := joinSp (pySplit cs)
  if cs.length > maxLen then cs.take maxLen else cs

/-- `MLService.preprocess_text` (services/ml_service.py lines 89-107) and the
identical `ExpenseClassifier.preprocess_text` (models/expense_classifier.py
lines 84-111), at the default maximum length 500. `none` stands for Python
`None`; `if not text: return ""` maps both `None` and `""` to `""`. -/
def preprocess_text (text : Option String) : String :=
  match text with
  | none => ""
  | some s =>
    if s = "" then ""
    else String.mk (preprocessChars Config.MAX_TEXT_LENGTH s.toList)

/-- Python truthiness of an optional string: `None` and `""` are falsy. -/
def truthy : Option String → Bool
  | none => false
  | some s => s ≠ ""

/-- `MLService.combine_features` (services/ml_service.py lines 109-117) and
the identical `ExpenseClassifier.combine_features`
(models/expense_classifier.py lines 113-130). -/
def combine_features (description merchant : Option String) : String :=
  let desc := preprocess_text description
  let merch := if truthy merchant then preprocess_text merchant else ""
  if merch ≠ "" then desc ++ " " ++ merch ++ " " ++ merch else desc

/-! ## Reference normalizer, written from the specification's words

The specification describes `normalize` as: empty/absent input yields the
empty string; otherwise lower-case, replace every character that is not an
ASCII letter, digit, or whitespace with a space, collapse consecutive
whitespace to single spaces and trim, then truncate by plain prefix cut to
the configured maximum length.  `collapseWs` collapses each maximal run of
whitespace to one space; trimming is `trimL`/`trimR`. -/

/-- Collapse every maximal run of whitespace characters to a single space. -/
def collapseWs : List Char → List Char
  | [] => []
  | [c] => [if isPySpace c then ' ' else c]
  | c :: d :: cs =>
    if isPySpace c then
      if isPySpace d then collapseWs (d :: cs)
      else ' ' :: collapseWs (d :: cs)
    else c :: collapseWs (d :: cs)

/-- The normalizer as the specification words it (reference definition for
the refinement claim): lower-case, replace non-alphanumeric-non-whitespace
by spaces, collapse consecutive whitespace to single spaces and trim, then
prefix-truncate to the configured maximum length (default 500). -/
def normalizeRef (text : Option String) : String :=
  match text with
  | none => ""
  | some s =>
    String.mk
      ((trimR (trimL (collapseWs (subNonAlnum (s.toList.map pyLower))))).take
        Config.MAX_TEXT_LENGTH)

/-! ## Substring matching (Python `in` on strings) -/

/-- Python `pat in s` on lists of characters: some suffix of `s` starts
with `pat`. The empty pattern is contained in every string. -/
def containsSub (p : List Char) : List Char → Bool
  | [] => p.isEmpty
  | c :: cs => p.isPrefixOf (c :: cs) || containsSub p cs

/-- Python `pat in s` for strings. -/
def strIn (pat s : String) : Bool :=
  containsSub pat.toList s.toList

/-- Python `str.lower()` (ASCII). -/
def pyLowerStr (s : String) : String :=
  String.mk (s.toList.map pyLower)

/-! ## Fallback Classifier (services/ml_service.py lines 155-205) -/

/-- The result dictionary returned by categorization:
`{category, confidence, suggestions}`. -/
structure PredResult where
  category : String
  confidence : ℚ
  suggestions : List String
deriving Repr, DecidableEq

/-- Food & Dining keywords (lines 162-166). -/
def foodKeywords : List String :=
  ["restaurant", "food", "cafe", "coffee", "dinner", "lunch", "breakfast",
   "pizza", "burger", "sushi", "bar", "pub", "grill", "diner",
   "mcdonalds", "subway", "starbucks", "kfc", "taco", "dominos"]

/-- Transportation keywords (lines 170-173). -/
def transportationKeywords : List String :=
  ["gas", "fuel", "gasoline", "uber", "lyft", "taxi", "bus", "train",
   "parking", "toll", "car", "auto", "shell", "exxon", "bp", "chevron"]

/-- Shopping keywords (lines 177-180). -/
def shoppingKeywords : List String :=
  ["amazon", "target", "walmart", "costco", "shop", "store", "retail",
   "clothes", "clothing", "shoes", "mall", "purchase", "ebay", "etsy"]

/-- Entertainment keywords (lines 184-187). -/
def entertainmentKeywords : List String :=
  ["movie", "cinema", "theater", "netflix", "spotify", "games", "gaming",
   "concert", "show", "event", "ticket", "entertainment"]

/-- Bills & Utilities keywords (lines 191-194). -/
def billsKeywords : List String :=
  ["electric", "electricity", "water", "gas", "internet", "phone",
   "cable", "utility", "bill", "payment", "insurance", "rent"]

/-- Healthcare keywords (lines 198-201). -/
def healthcareKeywords : List String :=
  ["doctor", "hospital", "medical", "pharmacy", "health", "dental",
   "clinic", "medicine", "prescription", "cvs", "walgreens"]

/-- The text the fallback classifier scans:
`f"{description.lower() if description else ''} {merchant.lower() if merchant else ''}"`. -/
def fallbackText (description merchant : Option String) : String :=
  let descLower := if truthy description then pyLowerStr (description.getD "") else ""
  let merchLower := if truthy merchant then pyLowerStr (merchant.getD "") else ""
  descLower ++ " " ++ merchLower

/-- `any(keyword in text for keyword in kws)`. -/
def kwMatch (kws : List String) (text : String) : Bool :=
  kws.any fun k => strIn k text

/-- `MLService.fallback_categorization` (services/ml_service.py
lines 155-205): six keyword tests in program order, first match returning
that category at confidence 0.7 with no suggestions, else Other at 0.3. -/
def fallback_categorization (description merchant : Option String) : PredResult :=
  let text := fallbackText description merchant
  if kwMatch foodKeywords text then ⟨"Food & Dining", 7/10, []⟩
  else if kwMatch transportationKeywords text then ⟨"Transportation", 7/10, []⟩
  else if kwMatch shoppingKeywords text then ⟨"Shopping", 7/10, []⟩
  else if kwMatch entertainmentKeywords text then ⟨"Entertainment", 7/10, []⟩
  else if kwMatch billsKeywords text then ⟨"Bills & Utilities", 7/10, []⟩
  else if kwMatch healthcareKeywords text then ⟨"Healthcare", 7/10, []⟩
  else ⟨"Other", 3/10, []⟩

/-- The ordered rule table as the specification words it: the six keyword
categories in the fixed order Food & Dining, Transportation, Shopping,
Entertainment, Bills & Utilities, Healthcare. -/
def fallbackRules : List (String × List String) :=
  [("Food & Dining", foodKeywords),
   ("Transportation", transportationKeywords),
   ("Shopping", shoppingKeywords),
   ("Entertainment", entertainmentKeywords),
   ("Bills & Utilities", billsKeywords),
   ("Healthcare", healthcareKeywords)]

/-- Reference rendering of the Fallback Classifier from the specification's
words: test the ordered rule table, first match wins at confidence 0.7 with
empty suggestions, otherwise category Other at confidence 0.3. -/
def fallbackRef (description merchant : Option String) : PredResult :=
  let text := fallbackText description merchant
  match fallbackRules.find? (fun r => kwMatch r.2 text) with
  | some r => ⟨r.1, 7/10, []⟩
  | none => ⟨"Other", 3/10, []⟩

/-! ## Prediction service state and `categorize` -/

/-- The mutable fields of `MLService` relevant to classification. The
trained sklearn classifier and vectorizer objects are opaque; only their
presence (`None` vs. loaded) drives control flow, so they are embedded as
`Option Unit`. -/
structure MLState where
  model : Option Unit
  vectorizer : Option Unit
  categories : List String
  model_version : String
deriving Repr, DecidableEq

/-- Python `max(probabilities)`: raises on an empty sequence, otherwise the
first maximum under strict comparison. -/
def pyMax : List ℚ → Except String ℚ
  | [] => .error "max() arg is an empty sequence"
  | x :: xs => .ok (xs.foldl (fun a b => if a < b then b else a) x)

/-- `np.argsort(probabilities)`: the indices `0..n-1` sorted ascending by
probability (tie order is unspecified in numpy; none of the verified
properties depend on it). -/
def npArgsort (probs : List ℚ) : List Nat :=
  List.insertionSort (fun i j => probs.getD i 0 ≤ probs.getD j 0)
    (List.range probs.length)

/-- The index list behind `suggestions`:
`np.argsort(probabilities)[::-1][:3]` filtered by probability > 0.1
(services/ml_service.py lines 142-143). -/
def suggIdx (probs : List ℚ) : List Nat :=
  ((npArgsort probs).reverse.take 3).filter fun i => probs.getD i 0 > 1/10

/-- `[classes_[i] for i in top_indices if probabilities[i] > 0.1]`. -/
def suggestionsOf (classes : List String) (probs : List ℚ) : List String :=
  (suggIdx probs).map fun i => classes.getD i ""

/-- Outcome of the opaque model inference on the feature text:
`(model.predict(v)[0], model.classes_, model.predict_proba(v)[0])`, or the
exception any of these sklearn calls raises. -/
abbrev InferFun := String → Except String (String × List String × List ℚ)

/-- The `try` block of `MLService.categorize` (services/ml_service.py
lines 121-149): fallback when model or vectorizer is `None`; the
Other/0.0 result on blank feature text; otherwise vectorize, predict and
build the result, propagating any exception as `Except.error`. -/
def categorizeTry (s : MLState) (infer : InferFun)
    (description merchant : Option String) : Except String PredResult :=
  if s.model.isNone || s.vectorizer.isNone then
    .ok (fallback_categorization description merchant)
  else
    let text := combine_features description merchant
    if pyStrip text = "" then .ok ⟨"Other", 0, []⟩
    else do
      let (prediction, classes, probs) ← infer text
      let confidence ← pyMax probs
      .ok ⟨prediction, confidence, suggestionsOf classes probs⟩

/-- `MLService.categorize` (services/ml_service.py lines 119-153): the
`try` block with its `except` handler, which answers with the fallback
classifier on any exception. -/
def categorize (s : MLState) (infer : InferFun)
    (description merchant : Option String) : PredResult :=
  match categorizeTry s infer description merchant with
  | .ok r => r
  | .error _ => fallback_categorization description merchant

/-! ## Training (services/ml_service.py lines 212-273) -/

/-- One entry of the training list; `none` fields model missing keys. -/
structure TrainItem where
  description : Option String
  merchant : Option String
  category : Option String
deriving Repr, DecidableEq

/-- The dictionary returned by a successful `train_model` call. -/
structure TrainOk where
  version : String
  accuracy : ℚ
  samples : Nat
deriving Repr, DecidableEq

/-- The `(text, label)` pairs built by the preparation loop
(services/ml_service.py lines 219-229): items having both a description and
a category contribute `combine_features(description, item.get('merchant', ''))`
and their category. -/
def validExamples (data : List TrainItem) : List (String × String) :=
  data.filterMap fun item =>
    match item.description, item.category with
    | some d, some c =>
      some (combine_features (some d) (some (item.merchant.getD "")), c)
    | _, _ => none

/-- `ceil(0.2 * n)`: the held-out test-set size sklearn's
`train_test_split` computes for `test_size=0.2`. -/
def nTestOf (n : Nat) : Nat := (n + 4) / 5

/-- The training-split size `n - n_test`. -/
def nTrainOf (n : Nat) : Nat := n - nTestOf n

/-- Feasibility of the stratified 80/20 split: sklearn's
`train_test_split(..., stratify=labels)` raises a `ValueError` when the
least populated class has fewer than 2 members, or when the number of
distinct classes exceeds the test or train size. -/
def stratifyFeasible (labels : List String) : Bool :=
  let classes := labels.eraseDups
  (labels.all fun l => 2 ≤ labels.count l) &&
    classes.length ≤ nTestOf labels.length &&
    classes.length ≤ nTrainOf labels.length

/-- `MLService.train_model` (services/ml_service.py lines 212-273) as a
state transformer. `fitEval` abstracts the outcome of the sklearn
`fit_transform`/`fit`/`transform`/`accuracy_score` steps (lines 251-257): the
held-out accuracy, or the exception one of them raises. `now` abstracts the
timestamp `datetime.now().strftime(...)`. All exceptions re-raise through the
`except` clause (line 273), so an `Except.error` result carries the state the
service is left in. `save_model` swallows its own I/O errors and reassigns no
field, so it does not appear in the state. -/
def train_model (s : MLState) (data : List TrainItem)
    (fitEval : Except String ℚ) (now : String) : MLState × Except String TrainOk :=
  if data.length < Config.MIN_TRAINING_SAMPLES then
    (s, .error "Need at least 100 training samples")
  else
    let ex := validExamples data
    if ex.length < Config.MIN_TRAINING_SAMPLES then
      (s, .error "Not enough valid training samples")
    else if ¬ stratifyFeasible (ex.map Prod.snd) then
      (s, .error "ValueError from train_test_split: stratification infeasible")
    else
      let s1 := { s with vectorizer := some (), model := some () }
      match fitEval with
      | .error e => (s1, .error e)
      | .ok accuracy =>
        let s2 := { s1 with model_version := "v" ++ now }
        (s2, .ok ⟨"v" ++ now, accuracy, data.length⟩)

/-! ## Model loading and construction (services/ml_service.py lines 17-69, 275-293) -/

/-- The possible outcomes of `load_model`'s interaction with the file
system and unpickler: no file at `MODEL_PATH`; a successful load whose
dictionary carries an optional version; or any exception along the way. -/
inductive LoadOutcome where
  | fileAbsent
  | success (version : Option String)
  | failure (msg : String)

/-- `MLService.load_model` (services/ml_service.py lines 54-69): on success
model, vectorizer and version are set from the loaded dictionary (version
defaulting to `Config.MODEL_VERSION`); on any exception both model and
vectorizer are reset to `None`; an absent file changes nothing. -/
def load_model (s : MLState) (o : LoadOutcome) : MLState :=
  match o with
  | .fileAbsent => s
  | .success ver =>
    { s with model := some (), vectorizer := some (),
             model_version := ver.getD Config.MODEL_VERSION }
  | .failure _ => { s with model := none, vectorizer := none }

/-- Outcomes of `load_categories` (services/ml_service.py lines 31-43):
file present with an optional `categories` entry, file absent (defaults are
written), or an exception resetting to the default list. -/
inductive CatOutcome where
  | loaded (cats : Option (List String))
  | absent
  | failure

/-- `MLService.load_categories`: only the `categories` field is touched. -/
def load_categories (s : MLState) : CatOutcome → MLState
  | .loaded cats => { s with categories := cats.getD Config.DEFAULT_CATEGORIES }
  | .absent => s
  | .failure => { s with categories := Config.DEFAULT_CATEGORIES }

/-- The field initialisation of `MLService.__init__` (lines 17-22). -/
def initState : MLState :=
  { model := none, vectorizer := none,
    categories := Config.DEFAULT_CATEGORIES,
    model_version := Config.MODEL_VERSION }

/-- `MLService.__init__` (services/ml_service.py lines 17-29):
initial fields, `load_categories()`, `load_model()`, and — when no model was
loaded — `train_with_default_data()`, which calls `train_model` on the
default data and swallows every exception (lines 275-293), keeping whatever
state `train_model` left. -/
def initService (catO : CatOutcome) (loadO : LoadOutcome)
    (defaultData : List TrainItem) (fitEval : Except String ℚ)
    (now : String) : MLState :=
  let s := load_categories initState catO
  let s := load_model s loadO
  if s.model.isNone then (train_model s defaultData fitEval now).1 else s

/-! ## Batch categorization -/

/-- One entry of a bulk request; `none` fields model missing keys. -/
structure BulkItem where
  id : Option String
  description : Option String
  merchant : Option String
deriving Repr, DecidableEq

/-- One entry of the bulk response of app.py (lines 118-131):
`{id, category, confidence}` plus an error message on failure. -/
structure BulkResult where
  id : String
  category : String
  confidence : ℚ
  errMsg : Option String
deriving Repr, DecidableEq

/-- The loop of `bulk_categorize` in app.py (lines 107-131): items missing
`id` or `description` are skipped with `continue`; for the rest,
`ml_service.categorize(description, expense.get('merchant', ''))` is tried,
its exceptions captured inline as category Uncategorized with confidence
0.0 and the error message. `cat` abstracts the service call with its
possible exception. -/
def bulk_categorize (cat : String → String → Except String PredResult)
    (expenses : List BulkItem) : List BulkResult :=
  expenses.filterMap fun e =>
    match e.id, e.description with
    | some i, some d =>
      match cat d (e.merchant.getD "") with
      | .ok r => some ⟨i, r.category, r.confidence, none⟩
      | .error msg => some ⟨i, "Uncategorized", 0, some msg⟩
    | _, _ => none

/-- One entry of `ExpenseClassifier.predict_batch`'s result list
(models/expense_classifier.py lines 295-315). -/
structure BatchResult where
  id : String
  category : String
  confidence : ℚ
  suggestions : List String
  errMsg : Option String
deriving Repr, DecidableEq

/-- `ExpenseClassifier.predict_batch` (models/expense_classifier.py
lines 285-315): every item yields a result; `item['description']` on a
missing key raises a `KeyError` caught by the same handler as a failing
`predict` call, producing category Other, confidence 0.0, empty
suggestions and the error message. `pred` abstracts `self.predict` with
its possible exceptions. -/
def predict_batch (pred : String → String → Except String PredResult)
    (items : List BulkItem) : List BatchResult :=
  items.map fun item =>
    match item.description with
    | none => ⟨item.id.getD "", "Other", 0, [], some "KeyError: description"⟩
    | some d =>
      match pred d (item.merchant.getD "") with
      | .ok r => ⟨item.id.getD "", r.category, r.confidence, r.suggestions, none⟩
      | .error msg => ⟨item.id.getD "", "Other", 0, [], some msg⟩

/-! # Verification of the audited claims -/

/-! ## C4: insufficient training data fails early and atomically -/

/-- C4: for every training set with fewer than the configured minimum
samples (default 100), `train_model` fails with the insufficient-data error
before constructing features — the result depends only on the list length,
no feature is built — and the previously loaded model, vectorizer,
categories and version are all left unmodified (the returned state is
exactly the input state). -/
theorem C4_train_insufficient_data_atomic (s : MLState) (data : List TrainItem)
    (fitEval : Except String ℚ) (now : String)
    (h : data.length < Config.MIN_TRAINING_SAMPLES) :
    train_model s data fitEval now =
      (s, Except.error "Need at least 100 training samples") := by
  unfold train_model
  simp [h]

/-- Witness for C4 at a concrete loaded state and a one-element training
set. -/
theorem C4_witness :
    ([(⟨some "coffee", none, some "Food & Dining"⟩ : TrainItem)]).length <
        Config.MIN_TRAINING_SAMPLES ∧
    train_model ⟨some (), some (), ["Food & Dining"], "v0"⟩
        [⟨some "coffee", none, some "Food & Dining"⟩] (Except.ok 1) "T" =
      (⟨some (), some (), ["Food & Dining"], "v0"⟩,
        Except.error "Need at least 100 training samples") :=
  ⟨by decide, C4_train_insufficient_data_atomic _ _ _ _ (by decide)⟩

/-! ## C3: infeasible stratified split -/

/-- A 100-example training set whose category `"B"` has a single example,
so the stratified 80/20 split is infeasible. -/
def oneSmallClassData : List TrainItem :=
  List.replicate 99 ⟨some "lunch at cafe", some "", some "Food & Dining"⟩ ++
    [⟨some "bus ticket", some "", some "B"⟩]

set_option maxRecDepth 40000 in
/-- Counterexample to C3: on this 100-example training set stratification
is infeasible (category `"B"` has one member), and `train_model` fails —
returning the propagated split error and leaving the state unchanged —
instead of degrading to a non-stratified split and proceeding. -/
theorem C3_counterexample :
    oneSmallClassData.length = 100 ∧
    stratifyFeasible ((validExamples oneSmallClassData).map Prod.snd) = false ∧
    (train_model initState oneSmallClassData (Except.ok 1) "T").2.isOk = false ∧
    (train_model initState oneSmallClassData (Except.ok 1) "T").1 = initState := by
  refine ⟨by decide, by decide, by decide, by decide⟩

/-- C3 as amended: when the stratified split over the prepared labels is
infeasible, `MLService.train_model` does not degrade to a non-stratified
split: the sklearn `ValueError` is re-raised by the `except` clause (the
call fails) and the previously loaded state is left unchanged. (Only the
standalone script scripts/train_model.py catches this error and retries
without stratification; the service and `ExpenseClassifier.train` do not.) -/
theorem C3_stratify_error_propagates (s : MLState) (data : List TrainItem)
    (fitEval : Except String ℚ) (now : String)
    (h1 : ¬ data.length < Config.MIN_TRAINING_SAMPLES)
    (h2 : ¬ (validExamples data).length < Config.MIN_TRAINING_SAMPLES)
    (h3 : stratifyFeasible ((validExamples data).map Prod.snd) = false) :
    train_model s data fitEval now =
      (s, Except.error "ValueError from train_test_split: stratification infeasible") := by
  unfold train_model
  simp [h1, h2, h3]

set_option maxRecDepth 40000 in
/-- Witness for C3's amended theorem at the concrete infeasible set. -/
theorem C3_witness :
    (¬ oneSmallClassData.length < Config.MIN_TRAINING_SAMPLES) ∧
    train_model ⟨some (), some (), ["X"], "v1"⟩ oneSmallClassData (Except.ok 1) "T" =
      (⟨some (), some (), ["X"], "v1"⟩,
        Except.error "ValueError from train_test_split: stratification infeasible") :=
  ⟨by decide,
    C3_stratify_error_propagates _ _ _ _ (by decide) (by decide) (by decide)⟩

/-! ## C10: model and vectorizer are `None` together or loaded together -/

/-- The implicit invariant of `MLService`: the classifier and the
vectorizer are absent together or present together. -/
def ModelVecInv (s : MLState) : Prop :=
  s.model.isSome = s.vectorizer.isSome

theorem modelVecInv_load_categories (s : MLState) (c : CatOutcome)
    (h : ModelVecInv s) : ModelVecInv (load_categories s c) := by
  cases c <;> simpa [load_categories, ModelVecInv] using h

theorem modelVecInv_load_model (s : MLState) (o : LoadOutcome)
    (h : ModelVecInv s) : ModelVecInv (load_model s o) := by
  cases o with
  | fileAbsent => exact h
  | success ver => simp [load_model, ModelVecInv]
  | failure msg => simp [load_model, ModelVecInv]

theorem modelVecInv_train_model (s : MLState) (data : List TrainItem)
    (fitEval : Except String ℚ) (now : String) (h : ModelVecInv s) :
    ModelVecInv (train_model s data fitEval now).1 := by
  by_cases h1 : data.length < Config.MIN_TRAINING_SAMPLES
  · simpa [train_model, h1] using h
  · by_cases h2 : (validExamples data).length < Config.MIN_TRAINING_SAMPLES
    · simpa [train_model, h1, h2] using h
    · by_cases h3 : stratifyFeasible ((validExamples data).map Prod.snd)
      · cases fitEval with
        | error e => simp [train_model, h1, h2, h3, ModelVecInv]
        | ok accuracy => simp [train_model, h1, h2, h3, ModelVecInv]
      · simpa [train_model, h1, h2, h3] using h

/-- C10: the `MLService` invariant `(model is None) iff (vectorizer is
None)` holds after construction and is preserved by `load_categories`,
`load_model` (all outcomes, including load failures) and `train_model`
(all outcomes, including every failing one); `categorize` assigns no field
and is embedded as a pure function of the state, so it cannot disturb the
invariant. Consequently `initService` — construction including the
default-data training attempt — always establishes it. -/
theorem C10_model_vectorizer_inv :
    ModelVecInv initState ∧
    (∀ s c, ModelVecInv s → ModelVecInv (load_categories s c)) ∧
    (∀ s o, ModelVecInv s → ModelVecInv (load_model s o)) ∧
    (∀ s data fitEval now, ModelVecInv s →
      ModelVecInv (train_model s data fitEval now).1) ∧
    (∀ catO loadO defaultData fitEval now,
      ModelVecInv (initService catO loadO defaultData fitEval now)) := by
  refine ⟨rfl, modelVecInv_load_categories, modelVecInv_load_model,
    modelVecInv_train_model, ?_⟩
  intro catO loadO defaultData fitEval now
  have h1 : ModelVecInv (load_model (load_categories initState catO) loadO) :=
    modelVecInv_load_model _ _ (modelVecInv_load_categories _ _ rfl)
  simp only [initService]
  split
  · exact modelVecInv_train_model _ _ _ _ h1
  · exact h1

/-- Witness for C10: the invariant after a concrete successful load into a
concrete invariant-satisfying state. -/
theorem C10_witness :
    ModelVecInv (load_model ⟨none, none, ["Other"], "1.0.0"⟩
      (LoadOutcome.success (some "v2"))) :=
  C10_model_vectorizer_inv.2.2.1 ⟨none, none, ["Other"], "1.0.0"⟩
    (LoadOutcome.success (some "v2")) rfl

/-! ## C1: `categorize` never propagates an error -/

/-- C1: `MLService.categorize` is total (the embedding returns a plain
`PredResult`, never an `Except.error`), and whenever the model or the
vectorizer is absent, or the model-based pipeline raises any internal
exception (an `Except.error` of the `try`-block body `categorizeTry`, for
any inference outcome `infer`), the caller receives exactly the Fallback
Classifier's result. -/
theorem C1_categorize_recovers (s : MLState) (infer : InferFun)
    (description merchant : Option String)
    (h : s.model = none ∨ s.vectorizer = none ∨
      ∃ e, categorizeTry s infer description merchant = Except.error e) :
    categorize s infer description merchant =
      fallback_categorization description merchant := by
  rcases h with h | h | ⟨e, he⟩
  · have : categorizeTry s infer description merchant =
        Except.ok (fallback_categorization description merchant) := by
      unfold categorizeTry; simp [h]
    unfold categorize; rw [this]
  · have : categorizeTry s infer description merchant =
        Except.ok (fallback_categorization description merchant) := by
      unfold categorizeTry; simp [h]
    unfold categorize; rw [this]
  · unfold categorize; rw [he]

/-- Witness for C1: a freshly constructed state without a model (and, for
the exception case, an inference function that always raises) yields the
fallback result for a concrete expense. -/
theorem C1_witness :
    categorize initState (fun _ => Except.error "vectorizer not fitted")
      (some "gas station fill up") none =
      fallback_categorization (some "gas station fill up") none :=
  C1_categorize_recovers _ _ _ _ (Or.inl rfl)

/-! ## C5: the Fallback Classifier -/

/-- C5: the Fallback Classifier is pure and total (a Lean function on all
optional strings, empty included), and it equals the reference first-match
rule engine: the six keyword categories are tested in the fixed order
Food & Dining, Transportation, Shopping, Entertainment, Bills & Utilities,
Healthcare, the first match winning at confidence 0.7 with empty
suggestions, otherwise category Other at confidence 0.3; in particular
"gas station fill up" yields Transportation at 0.7 and
"totally unrecognizable xyz123" yields Other at 0.3. -/
theorem C5_fallback_first_match :
    (∀ description merchant,
      fallback_categorization description merchant =
        fallbackRef description merchant) ∧
    fallback_categorization (some "gas station fill up") none =
      ⟨"Transportation", 7/10, []⟩ ∧
    fallback_categorization (some "totally unrecognizable xyz123") none =
      ⟨"Other", 3/10, []⟩ := by
  refine ⟨?_, rfl, rfl⟩
  intro description merchant
  unfold fallback_categorization fallbackRef
  cases h1 : kwMatch foodKeywords (fallbackText description merchant) <;>
    cases h2 : kwMatch transportationKeywords (fallbackText description merchant) <;>
    cases h3 : kwMatch shoppingKeywords (fallbackText description merchant) <;>
    cases h4 : kwMatch entertainmentKeywords (fallbackText description merchant) <;>
    cases h5 : kwMatch billsKeywords (fallbackText description merchant) <;>
    cases h6 : kwMatch healthcareKeywords (fallbackText description merchant) <;>
    simp [fallbackRules, List.find?, h1, h2, h3, h4, h5, h6]

/-! ## C9: batch categorization -/

/-- A concrete total service call for the batch loops: `categorize` of a
model-less service, which answers with the fallback classifier. -/
def serviceCat : String → String → Except String PredResult :=
  fun d m => Except.ok (fallback_categorization (some d) (some m))

/-- Counterexample to C9: in app.py's bulk loop an item lacking
`description` (a malformed item) is skipped by `continue` — the batch of
two items returns a single result and the malformed item's failure is not
captured inline as an Uncategorized entry, contrary to the claim that
every per-item failure appears in that item's result. -/
theorem C9_counterexample :
    bulk_categorize serviceCat
      [⟨some "1", some "Uber ride", none⟩, ⟨some "2", none, none⟩] =
      [⟨"1", "Transportation", 7/10, none⟩] := rfl

/-- C9 as amended: neither batch loop ever aborts on a malformed or
failing item, but the two loops handle failures differently. app.py's
`bulk_categorize` produces exactly one result per item having both `id`
and `description` — the `categorize` result on success, or an inline
`Uncategorized`/0.0/error entry when `categorize` raises — and silently
skips malformed items (no result for them). `ExpenseClassifier.predict_batch`
produces a result for every item, capturing each per-item failure (missing
description key included) inline as category `Other`, confidence 0.0,
empty suggestions and an error message. -/
theorem C9_batch_isolation :
    (∀ cat expenses, (bulk_categorize cat expenses).length =
      (expenses.filter fun e => e.id.isSome && e.description.isSome).length) ∧
    (∀ cat expenses (e : BulkItem), e ∈ expenses → ∀ i d,
      e.id = some i → e.description = some d →
      (∃ r, cat d (e.merchant.getD "") = Except.ok r ∧
        (⟨i, r.category, r.confidence, none⟩ : BulkResult) ∈
          bulk_categorize cat expenses) ∨
      (∃ msg, cat d (e.merchant.getD "") = Except.error msg ∧
        (⟨i, "Uncategorized", 0, some msg⟩ : BulkResult) ∈
          bulk_categorize cat expenses)) ∧
    (∀ pred items, (predict_batch pred items).length = items.length) ∧
    (∀ pred items (r : BatchResult), r ∈ predict_batch pred items →
      r.errMsg ≠ none →
      r.category = "Other" ∧ r.confidence = 0 ∧ r.suggestions = []) := by
  refine ⟨?_, ?_, ?_, ?_⟩
  · intro cat expenses
    induction expenses with
    | nil => rfl
    | cons e es ih =>
      cases hid : e.id with
      | none => simpa [bulk_categorize, List.filterMap_cons, List.filter_cons, hid]
          using ih
      | some i =>
        cases hd : e.description with
        | none => simpa [bulk_categorize, List.filterMap_cons, List.filter_cons,
            hid, hd] using ih
        | some d =>
          cases hc : cat d (e.merchant.getD "") with
          | ok r => simpa [bulk_categorize, List.filterMap_cons, List.filter_cons,
              hid, hd, hc] using ih
          | error msg => simpa [bulk_categorize, List.filterMap_cons,
              List.filter_cons, hid, hd, hc] using ih
  · intro cat expenses e he i d hi hd
    cases hc : cat d (e.merchant.getD "") with
    | ok r =>
      refine Or.inl ⟨r, rfl, List.mem_filterMap.mpr ⟨e, he, ?_⟩⟩
      simp only [hi, hd, hc]
    | error msg =>
      refine Or.inr ⟨msg, rfl, List.mem_filterMap.mpr ⟨e, he, ?_⟩⟩
      simp only [hi, hd, hc]
  · intro pred items
    simp [predict_batch]
  · intro pred items r hr herr
    rcases List.mem_map.mp hr with ⟨item, hitem, hf⟩
    cases hd : item.description with
    | none => rw [hd] at hf; cases hf; exact ⟨rfl, rfl, rfl⟩
    | some d =>
      rw [hd] at hf
      cases hc : pred d (item.merchant.getD "") with
      | ok pr => simp only [hc] at hf; cases hf; simp at herr
      | error msg => simp only [hc] at hf; cases hf; exact ⟨rfl, rfl, rfl⟩

/-- Witness for C9's amended theorem: the two-item batch of the
counterexample, with one well-formed and one malformed item, yields
exactly one result, and the well-formed item's successful categorization
appears in it. -/
theorem C9_witness :
    (bulk_categorize serviceCat
        [⟨some "1", some "Uber ride", none⟩, ⟨some "2", none, none⟩]).length =
      (([⟨some "1", some "Uber ride", none⟩, ⟨some "2", none, none⟩] :
          List BulkItem).filter fun e => e.id.isSome && e.description.isSome).length :=
  C9_batch_isolation.1 serviceCat
    [⟨some "1", some "Uber ride", none⟩, ⟨some "2", none, none⟩]

/-! ## C2: shape of `suggestions` on the trained-model path -/

/-- C2: whenever `categorize` takes the trained-model path (model and
vectorizer present, non-blank feature text, inference succeeding with
class list `classes` and probability vector `probs`), the returned result
carries `suggestionsOf classes probs`, and that suggestions list has at
most 3 entries, every entry's class probability (the probability at its
selected index) exceeds 0.1, and the selected indices are ordered by
descending probability. -/
theorem C2_suggestions_shape (s : MLState) (infer : InferFun)
    (description merchant : Option String)
    (prediction : String) (classes : List String) (probs : List ℚ)
    (hm : s.model ≠ none) (hv : s.vectorizer ≠ none)
    (ht : ¬ pyStrip (combine_features description merchant) = "")
    (hi : infer (combine_features description merchant) =
      Except.ok (prediction, classes, probs))
    (hp : probs ≠ []) :
    (∃ confidence, pyMax probs = Except.ok confidence ∧
      categorize s infer description merchant =
        ⟨prediction, confidence, suggestionsOf classes probs⟩) ∧
    (suggestionsOf classes probs).length ≤ 3 ∧
    suggestionsOf classes probs =
      (suggIdx probs).map (fun i => classes.getD i "") ∧
    (∀ i ∈ suggIdx probs, probs.getD i 0 > 1/10) ∧
    (suggIdx probs).Pairwise (fun i j => probs.getD j 0 ≤ probs.getD i 0) := by
  refine ⟨?_, ?_, rfl, ?_, ?_⟩
  · obtain ⟨x, xs, rfl⟩ : ∃ x xs, probs = x :: xs := by
      cases probs with
      | nil => exact absurd rfl hp
      | cons x xs => exact ⟨x, xs, rfl⟩
    refine ⟨xs.foldl (fun a b => if a < b then b else a) x, rfl, ?_⟩
    unfold categorize categorizeTry
    simp [Option.isNone_iff_eq_none, hm, hv, ht, hi, pyMax, Bind.bind, Except.bind]
  · calc (suggestionsOf classes probs).length
        = (suggIdx probs).length := List.length_map _ _
      _ ≤ ((npArgsort probs).reverse.take 3).length := List.length_filter_le _ _
      _ ≤ 3 := by
          rw [List.length_take]; exact Nat.min_le_left _ _
  · intro i hi2
    have := (List.mem_filter.mp hi2).2
    exact of_decide_eq_true this
  · have htot : IsTotal Nat (fun i j => probs.getD i 0 ≤ probs.getD j 0) :=
      ⟨fun a b => le_total _ _⟩
    have htrans : IsTrans Nat (fun i j => probs.getD i 0 ≤ probs.getD j 0) :=
      ⟨fun a b c hab hbc => le_trans hab hbc⟩
    have hsorted : (npArgsort probs).Sorted
        (fun i j => probs.getD i 0 ≤ probs.getD j 0) :=
      List.sorted_insertionSort _ _
    have hrev : (npArgsort probs).reverse.Pairwise
        (fun i j => probs.getD j 0 ≤ probs.getD i 0) :=
      List.pairwise_reverse.mpr hsorted
    exact hrev.sublist ((List.filter_sublist _).trans (List.take_sublist _ _))

/-- Witness for C2 at a concrete loaded state, two classes and exact
probabilities 9/10 and 1/10. -/
theorem C2_witness :
    (suggestionsOf ["Food & Dining", "Other"] [9/10, 1/10]).length ≤ 3 :=
  (C2_suggestions_shape ⟨some (), some (), [], "v1"⟩
    (fun _ => Except.ok ("Food & Dining", ["Food & Dining", "Other"], [9/10, 1/10]))
    (some "coffee") none "Food & Dining" ["Food & Dining", "Other"] [9/10, 1/10]
    (by decide) (by decide) (by decide) rfl (by decide)).2.1

/-! ## Normalizer toolkit

List-level lemmas relating the implementation's `split`/`join` pipeline to
the specification's collapse-and-trim description. -/

theorem dropWhile_length_le (p : Char → Bool) (l : List Char) :
    (l.dropWhile p).length ≤ l.length := by
  induction l with
  | nil => exact Nat.le_refl 0
  | cons c cs ih =>
    by_cases h : p c
    · simp only [List.dropWhile_cons, h, if_true]
      exact Nat.le_succ_of_le ih
    · simp [List.dropWhile_cons, h]

theorem dropWhile_append_left (p : Char → Bool) (xs ys : List Char)
    (h : ∃ x ∈ xs, p x = false) :
    (xs ++ ys).dropWhile p = xs.dropWhile p ++ ys := by
  induction xs with
  | nil => obtain ⟨x, hx, _⟩ := h; exact absurd hx (List.not_mem_nil x)
  | cons c cs ih =>
    by_cases hc : p c
    · obtain ⟨x, hx, hpx⟩ := h
      have hxcs : x ∈ cs := by
        cases List.mem_cons.mp hx with
        | inl he => rw [he] at hpx; rw [hc] at hpx; cases hpx
        | inr hm => exact hm
      simp only [List.cons_append, List.dropWhile_cons, hc, if_true]
      exact ih ⟨x, hxcs, hpx⟩
    · simp [List.dropWhile_cons, hc]

theorem trimR_append (as bs : List Char) (h : ∃ x ∈ bs, isPySpace x = false) :
    trimR (as ++ bs) = as ++ trimR bs := by
  unfold trimR
  rw [List.reverse_append]
  rw [dropWhile_append_left isPySpace bs.reverse as.reverse
    (by obtain ⟨x, hx, hpx⟩ := h; exact ⟨x, List.mem_reverse.mpr hx, hpx⟩)]
  rw [List.reverse_append, List.reverse_reverse]

theorem trimR_all_nonspace (cs : List Char)
    (h : ∀ x ∈ cs, isPySpace x = false) : trimR cs = cs := by
  unfold trimR
  have hd : cs.reverse.dropWhile isPySpace = cs.reverse := by
    cases hrev : cs.reverse with
    | nil => rfl
    | cons x xs =>
      have hx : x ∈ cs := by
        rw [← List.mem_reverse, hrev]; exact List.mem_cons_self x xs
      simp [List.dropWhile_cons, h x hx]
  rw [hd, List.reverse_reverse]

theorem trimR_concat_space (as : List Char) : trimR (as ++ [' ']) = trimR as := by
  unfold trimR
  rw [List.reverse_append]
  rfl

theorem trimL_cons_nonspace (c : Char) (cs : List Char) (h : isPySpace c = false) :
    trimL (c :: cs) = c :: cs := by
  simp [trimL, List.dropWhile_cons, h]

theorem trimL_cons_space (c : Char) (cs : List Char) (h : isPySpace c = true) :
    trimL (c :: cs) = trimL cs := by
  simp [trimL, List.dropWhile_cons, h]

theorem pySplit_cons_space (c : Char) (cs : List Char) (h : isPySpace c = true) :
    pySplit (c :: cs) = pySplit cs := by
  simp [pySplit, splitAux, h]

theorem pySplit_trimL (cs : List Char) : pySplit (trimL cs) = pySplit cs := by
  induction cs with
  | nil => rfl
  | cons c cs ih =>
    by_cases hc : isPySpace c
    · rw [trimL_cons_space c cs hc, pySplit_cons_space c cs hc, ih]
    · rw [trimL_cons_nonspace c cs (by simpa using hc)]

theorem splitAux_ne (xs : List Char) : ∀ acc : List Char, acc ≠ [] →
    splitAux xs acc =
      (acc.reverse ++ xs.takeWhile (fun c => !isPySpace c)) ::
        pySplit (xs.dropWhile (fun c => !isPySpace c)) := by
  induction xs with
  | nil =>
    intro acc hacc
    simp [splitAux, pySplit, List.isEmpty_iff, hacc]
  | cons c cs ih =>
    intro acc hacc
    by_cases hc : isPySpace c
    · have h1 : splitAux (c :: cs) acc = acc.reverse :: splitAux cs [] := by
        simp [splitAux, hc, List.isEmpty_iff, hacc]
      have h2 : List.takeWhile (fun x => !isPySpace x) (c :: cs) = [] := by
        simp [List.takeWhile_cons, hc]
      have h3 : List.dropWhile (fun x => !isPySpace x) (c :: cs) = c :: cs := by
        simp [List.dropWhile_cons, hc]
      rw [h1, h2, h3, List.append_nil, pySplit_cons_space c cs hc]
      rfl
    · simp only [splitAux, hc, if_false]
      rw [ih (c :: acc) (List.cons_ne_nil c acc)]
      simp [hc, List.takeWhile_cons, List.dropWhile_cons]

theorem pySplit_cons_nonspace (c : Char) (cs : List Char)
    (h : isPySpace c = false) :
    pySplit (c :: cs) =
      (c :: cs.takeWhile (fun x => !isPySpace x)) ::
        pySplit (cs.dropWhile (fun x => !isPySpace x)) := by
  have h0 : pySplit (c :: cs) = splitAux cs [c] := by
    simp [pySplit, splitAux, h]
  rw [h0, splitAux_ne cs [c] (List.cons_ne_nil c [])]
  rfl

theorem pySplit_ne_nil_of_head (c : Char) (cs : List Char)
    (h : isPySpace c = false) : pySplit (c :: cs) ≠ [] := by
  rw [pySplit_cons_nonspace c cs h]
  exact List.cons_ne_nil _ _

theorem collapseWs_cons_space : ∀ (cs : List Char) (c : Char),
    isPySpace c = true → collapseWs (c :: cs) = ' ' :: collapseWs (trimL cs) := by
  intro cs
  induction cs with
  | nil => intro c h; simp [collapseWs, trimL, h]
  | cons d cs' ih =>
    intro c h
    by_cases hd : isPySpace d
    · rw [trimL_cons_space d cs' hd]
      have h1 : collapseWs (c :: d :: cs') = collapseWs (d :: cs') := by
        simp [collapseWs, h, hd]
      rw [h1, ih d hd]
    · rw [trimL_cons_nonspace d cs' (by simpa using hd)]
      simp [collapseWs, h, hd]

theorem collapseWs_cons_nonspace (c : Char) (cs : List Char)
    (h : isPySpace c = false) :
    collapseWs (c :: cs) = c :: collapseWs cs := by
  cases cs with
  | nil => simp [collapseWs, h]
  | cons d cs' => simp [collapseWs, h]

theorem collapseWs_nonspace_append (tok rest : List Char)
    (h : ∀ x ∈ tok, isPySpace x = false) :
    collapseWs (tok ++ rest) = tok ++ collapseWs rest := by
  induction tok with
  | nil => rfl
  | cons c cs ih =>
    rw [List.cons_append,
      collapseWs_cons_nonspace c (cs ++ rest) (h c (List.mem_cons_self c cs)),
      ih (fun x hx => h x (List.mem_cons_of_mem c hx))]
    rfl

theorem joinSp_cons_ne (t : List Char) (L : List (List Char)) (h : L ≠ []) :
    joinSp (t :: L) = t ++ ' ' :: joinSp L := by
  cases L with
  | nil => exact absurd rfl h
  | cons u us => rfl

theorem joinSp_pySplit_aux : ∀ (n : Nat) (cs : List Char), cs.length ≤ n →
    joinSp (pySplit cs) = trimR (trimL (collapseWs cs)) := by
  intro n
  induction n with
  | zero =>
    intro cs h
    have : cs = [] := List.length_eq_zero.mp (Nat.le_zero.mp h)
    subst this; rfl
  | succ n ih =>
    intro cs hlen
    match cs with
    | [] => rfl
    | c :: cs' =>
      have hcs' : cs'.length ≤ n := Nat.le_of_succ_le_succ hlen
      by_cases hc : isPySpace c
      · -- leading whitespace: both sides reduce to the whitespace-trimmed tail
        rw [pySplit_cons_space c cs' hc, ← pySplit_trimL cs',
          collapseWs_cons_space cs' c hc]
        have hsp : trimL (' ' :: collapseWs (trimL cs')) =
            trimL (collapseWs (trimL cs')) := trimL_cons_space _ _ (by decide)
        rw [hsp]
        exact ih (trimL cs') (le_trans (dropWhile_length_le _ _) hcs')
      · -- a token starts here
        have hc' : isPySpace c = false := by simpa using hc
        set tok := c :: cs'.takeWhile (fun x => !isPySpace x) with htok_def
        set rest := cs'.dropWhile (fun x => !isPySpace x) with hrest_def
        have htok : ∀ x ∈ tok, isPySpace x = false := by
          intro x hx
          cases List.mem_cons.mp hx with
          | inl he => rw [he]; exact hc'
          | inr hm => simpa using List.mem_takeWhile_imp hm
        have hdecomp : c :: cs' = tok ++ rest := by
          rw [htok_def, hrest_def, List.cons_append,
            List.takeWhile_append_dropWhile]
        have hrest_len : rest.length ≤ n :=
          le_trans (dropWhile_length_le _ _) hcs'
        rw [pySplit_cons_nonspace c cs' hc']
        rw [← htok_def, ← hrest_def, hdecomp,
          collapseWs_nonspace_append tok rest htok]
        have htrimL : trimL (tok ++ collapseWs rest) = tok ++ collapseWs rest := by
          rw [htok_def, List.cons_append]
          exact trimL_cons_nonspace _ _ hc'
        rw [htrimL]
        cases hrest : rest with
        | nil =>
          show joinSp [tok] = trimR (tok ++ collapseWs [])
          show tok = trimR (tok ++ [])
          rw [List.append_nil]
          exact (trimR_all_nonspace tok htok).symm
        | cons r rest' =>
          have hr : isPySpace r = true := by
            have := List.head?_dropWhile_not (fun x => !isPySpace x) cs'
            rw [← hrest_def, hrest] at this
            simpa using this
          have hrest'_len : rest'.length ≤ n := by
            have : rest'.length < rest.length := by rw [hrest]; simp
            omega
          rw [collapseWs_cons_space rest' r hr]
          set rest2 := trimL rest' with hrest2_def
          have hrest2_len : rest2.length ≤ n :=
            le_trans (dropWhile_length_le _ _) hrest'_len
          have hLHS : pySplit (r :: rest') = pySplit rest2 := by
            rw [pySplit_cons_space r rest' hr, hrest2_def, pySplit_trimL]
          rw [hLHS]
          cases hrest2 : rest2 with
          | nil =>
            rw [show pySplit ([] : List Char) = [] from rfl]
            rw [show collapseWs ([] : List Char) = [] from rfl]
            have : tok ++ [' '] ++ ([] : List Char) = tok ++ [' '] := by simp
            rw [show tok ++ ' ' :: ([] : List Char) = tok ++ [' '] from rfl,
              trimR_concat_space, trimR_all_nonspace tok htok]
            rfl
          | cons x rest3 =>
            have hx : isPySpace x = false := by
              have := List.head?_dropWhile_not isPySpace rest'
              rw [← trimL, ← hrest2_def, hrest2] at this
              simpa using this
            have hne : pySplit (x :: rest3) ≠ [] :=
              pySplit_ne_nil_of_head x rest3 hx
            rw [joinSp_cons_ne tok (pySplit (x :: rest3)) hne]
            have hIH : joinSp (pySplit (x :: rest3)) =
                trimR (trimL (collapseWs (x :: rest3))) := by
              rw [← hrest2]
              exact ih rest2 hrest2_len
            rw [collapseWs_cons_nonspace x rest3 hx] at hIH
            rw [trimL_cons_nonspace x (collapseWs rest3) hx] at hIH
            rw [hIH]
            have hmem : ∃ y ∈ x :: collapseWs rest3, isPySpace y = false :=
              ⟨x, List.mem_cons_self _ _, hx⟩
            rw [← collapseWs_cons_nonspace x rest3 hx] at hmem ⊢
            have : tok ++ ' ' :: collapseWs (x :: rest3) =
                (tok ++ [' ']) ++ collapseWs (x :: rest3) := by simp
            rw [this, trimR_append (tok ++ [' ']) _ hmem]
            simp

/-- The implementation's whitespace normalisation — split on whitespace
runs and re-join with single spaces — equals the specification's collapse
runs of whitespace and trim both ends. -/
theorem joinSp_pySplit (cs : List Char) :
    joinSp (pySplit cs) = trimR (trimL (collapseWs cs)) :=
  joinSp_pySplit_aux cs.length cs (Nat.le_refl _)

theorem preprocessChars_eq_take (maxLen : Nat) (cs : List Char) :
    preprocessChars maxLen cs =
      (joinSp (pySplit (subNonAlnum (cs.map pyLower)))).take maxLen := by
  unfold preprocessChars
  by_cases h : (joinSp (pySplit (subNonAlnum (cs.map pyLower)))).length > maxLen
  · simp [h]
  · simp [h, List.take_of_length_le (Nat.le_of_not_lt h)]

/-! ## C6: the normalizer refines its specification -/

/-- C6: for every input (absent, empty, or any string), the
implementation's `preprocess_text` — lower-case, regex replacement,
`' '.join(text.split())`, conditional prefix truncation at the configured
maximum length 500 — equals the reference normalizer transcribed from the
specification: lower-case, replace every character that is not an ASCII
letter, digit or whitespace with a space, collapse consecutive whitespace
to single spaces and trim, then prefix-truncate to the configured maximum
length. -/
theorem C6_normalize_refines_spec (text : Option String) :
    preprocess_text text = normalizeRef text := by
  cases text with
  | none => rfl
  | some s =>
    by_cases hs : s = ""
    · subst hs; rfl
    · unfold preprocess_text normalizeRef
      simp only [hs, if_false]
      rw [preprocessChars_eq_take, joinSp_pySplit]

/-! ## C8: feature combination -/

theorem splitAux_append_space : ∀ (xs acc ys : List Char),
    splitAux (xs ++ ' ' :: ys) acc = splitAux xs acc ++ splitAux ys [] := by
  intro xs
  induction xs with
  | nil =>
    intro acc ys
    show splitAux (' ' :: ys) acc = splitAux [] acc ++ splitAux ys []
    by_cases hacc : acc.isEmpty
    · simp [splitAux, hacc, show isPySpace ' ' = true from rfl]
    · simp [splitAux, hacc, show isPySpace ' ' = true from rfl]
  | cons c cs ih =>
    intro acc ys
    by_cases hc : isPySpace c
    · have hstep : ∀ zs, splitAux (c :: zs) acc =
          (if acc.isEmpty then [] else [acc.reverse]) ++ splitAux zs [] := by
        intro zs
        by_cases hacc : acc.isEmpty <;> simp [splitAux, hc, hacc]
      rw [List.cons_append, hstep, hstep, ih [] ys, List.append_assoc]
    · have hstep : ∀ zs, splitAux (c :: zs) acc = splitAux zs (c :: acc) := by
        intro zs; simp [splitAux, hc]
      rw [List.cons_append, hstep, hstep, ih (c :: acc) ys]

theorem pySplit_append_space (xs ys : List Char) :
    pySplit (xs ++ ' ' :: ys) = pySplit xs ++ pySplit ys :=
  splitAux_append_space xs [] ys

/-- The token list of a string, Python `s.split()`. -/
def pyTokens (s : String) : List String :=
  (pySplit s.toList).map String.mk

theorem pyTokens_append_space (a b : String) :
    pyTokens (a ++ " " ++ b) = pyTokens a ++ pyTokens b := by
  unfold pyTokens
  have h : (a ++ " " ++ b).toList = a.toList ++ ' ' :: b.toList := by
    show (a ++ " " ++ b).data = a.data ++ ' ' :: b.data
    rw [String.data_append, String.data_append, List.append_assoc]
    rfl
  rw [h, pySplit_append_space, List.map_append]

/-- C8: with an absent or empty merchant, `combine_features` is exactly the
normalized description; with a merchant whose normalization is non-empty
it is the normalized description followed by two copies of the normalized
merchant separated by single spaces, so its token list is the description
tokens once followed by the merchant tokens twice. -/
theorem C8_combine_features :
    (∀ d, combine_features d none = preprocess_text d) ∧
    (∀ d, combine_features d (some "") = preprocess_text d) ∧
    (∀ d m, preprocess_text (some m) ≠ "" →
      combine_features d (some m) =
        preprocess_text d ++ " " ++ preprocess_text (some m) ++ " " ++
          preprocess_text (some m) ∧
      pyTokens (combine_features d (some m)) =
        pyTokens (preprocess_text d) ++ pyTokens (preprocess_text (some m)) ++
          pyTokens (preprocess_text (some m))) := by
  refine ⟨?_, ?_, ?_⟩
  · intro d; simp [combine_features, truthy]
  · intro d; simp [combine_features, truthy]
  · intro d m hm
    have hm' : m ≠ "" := by
      intro he; subst he; simp [preprocess_text] at hm
    have hcomb : combine_features d (some m) =
        preprocess_text d ++ " " ++ preprocess_text (some m) ++ " " ++
          preprocess_text (some m) := by
      unfold combine_features
      simp [truthy, hm', hm]
    refine ⟨hcomb, ?_⟩
    rw [hcomb, pyTokens_append_space, pyTokens_append_space]

/-- Witness for C8's merchant-doubling clause at a concrete description
and merchant. -/
theorem C8_witness :
    combine_features (some "Morning coffee") (some "Starbucks!") =
      preprocess_text (some "Morning coffee") ++ " " ++
        preprocess_text (some "Starbucks!") ++ " " ++
        preprocess_text (some "Starbucks!") ∧
    pyTokens (combine_features (some "Morning coffee") (some "Starbucks!")) =
      pyTokens (preprocess_text (some "Morning coffee")) ++
        pyTokens (preprocess_text (some "Starbucks!")) ++
        pyTokens (preprocess_text (some "Starbucks!")) :=
  C8_combine_features.2.2 (some "Morning coffee") "Starbucks!" (by decide)

/-! ## C7: idempotence of the normalizer -/

theorem char_toNat_ofNat (n : Nat) (h : n < 55296) : (Char.ofNat n).toNat = n := by
  have hv : n.isValidChar := Or.inl h
  simp only [Char.ofNat, hv, dite_true]
  simp [Char.ofNatAux, Char.toNat, UInt32.toNat, BitVec.toNat_ofNat]

theorem pyLower_not_upper (a : Char) :
    ¬(65 ≤ (pyLower a).toNat ∧ (pyLower a).toNat ≤ 90) := by
  unfold pyLower
  by_cases h : 65 ≤ a.toNat ∧ a.toNat ≤ 90
  · rw [if_pos h]
    have hlt : a.toNat + 32 < 55296 := by omega
    rw [char_toNat_ofNat (a.toNat + 32) hlt]
    omega
  · rw [if_neg h]
    exact h

theorem pyLower_fix (c : Char) (h : ¬(65 ≤ c.toNat ∧ c.toNat ≤ 90)) :
    pyLower c = c := by
  unfold pyLower
  rw [if_neg h]

theorem pyLower_of_pyLower_image (c a : Char) (h : c = pyLower a) :
    pyLower c = c := by
  subst h
  exact pyLower_fix _ (pyLower_not_upper a)

theorem subNonAlnum_chars (w : List Char) (c : Char) (h : c ∈ subNonAlnum w) :
    (isAlnum c || isPySpace c) = true := by
  obtain ⟨b, _, hb⟩ := List.mem_map.mp h
  by_cases hcond : (isAlnum b || isPySpace b) = true
  · rw [if_pos hcond] at hb; rw [← hb]; exact hcond
  · rw [if_neg hcond] at hb; rw [← hb]; rfl

theorem subNonAlnum_map_pyLower_chars (cs : List Char) (c : Char)
    (h : c ∈ subNonAlnum (cs.map pyLower)) : c = ' ' ∨ ∃ a, c = pyLower a := by
  obtain ⟨b, hbmem, hb⟩ := List.mem_map.mp h
  obtain ⟨a, _, ha⟩ := List.mem_map.mp hbmem
  by_cases hcond : (isAlnum b || isPySpace b) = true
  · rw [if_pos hcond] at hb
    exact Or.inr ⟨a, by rw [← hb, ← ha]⟩
  · rw [if_neg hcond] at hb
    exact Or.inl hb.symm

theorem map_fix_id (f : Char → Char) : ∀ l : List Char,
    (∀ c ∈ l, f c = c) → l.map f = l := by
  intro l h
  induction l with
  | nil => rfl
  | cons c cs ih =>
    rw [List.map_cons, h c (List.mem_cons_self c cs),
      ih fun x hx => h x (List.mem_cons_of_mem c hx)]

theorem subNonAlnum_id (l : List Char)
    (h : ∀ c ∈ l, (isAlnum c || isPySpace c) = true) : subNonAlnum l = l := by
  unfold subNonAlnum
  exact map_fix_id _ l fun c hc => if_pos (h c hc)

theorem joinSp_chars : ∀ (ts : List (List Char)) (c : Char), c ∈ joinSp ts →
    (∃ t ∈ ts, c ∈ t) ∨ c = ' ' := by
  intro ts
  induction ts with
  | nil => intro c hc; cases hc
  | cons t ts ih =>
    intro c hc
    cases ts with
    | nil => exact Or.inl ⟨t, List.mem_cons_self t [], hc⟩
    | cons u ts' =>
      rw [joinSp_cons_ne t (u :: ts') (List.cons_ne_nil u ts')] at hc
      cases List.mem_append.mp hc with
      | inl h1 => exact Or.inl ⟨t, List.mem_cons_self t _, h1⟩
      | inr h2 =>
        cases List.mem_cons.mp h2 with
        | inl he => exact Or.inr he
        | inr hm =>
          cases ih c hm with
          | inl hex =>
            obtain ⟨v, hv, hcv⟩ := hex
            exact Or.inl ⟨v, List.mem_cons_of_mem t hv, hcv⟩
          | inr he => exact Or.inr he

theorem splitAux_tokens : ∀ (cs acc : List Char),
    (∀ c ∈ acc, isPySpace c = false) →
    ∀ t ∈ splitAux cs acc,
      t ≠ [] ∧ ∀ c ∈ t, isPySpace c = false ∧ (c ∈ acc ∨ c ∈ cs) := by
  intro cs
  induction cs with
  | nil =>
    intro acc hacc t ht
    by_cases he : acc.isEmpty
    · simp [splitAux, he] at ht
    · have hne : acc ≠ [] := by simpa [List.isEmpty_iff] using he
      have : t = acc.reverse := by
        simpa [splitAux, he] using ht
      subst this
      refine ⟨by simpa using hne, fun c hc => ?_⟩
      have hmem : c ∈ acc := List.mem_reverse.mp hc
      exact ⟨hacc c hmem, Or.inl hmem⟩
  | cons c0 cs ih =>
    intro acc hacc t ht
    by_cases hc0 : isPySpace c0
    · have hsplit : t = acc.reverse ∧ acc ≠ [] ∨ t ∈ splitAux cs [] := by
        by_cases he : acc.isEmpty
        · right; simpa [splitAux, hc0, he] using ht
        · have := (by simpa [splitAux, hc0, he] using ht :
            t = acc.reverse ∨ t ∈ splitAux cs [])
          cases this with
          | inl h1 => exact Or.inl ⟨h1, by simpa [List.isEmpty_iff] using he⟩
          | inr h2 => exact Or.inr h2
      cases hsplit with
      | inl h1 =>
        obtain ⟨h1, hne⟩ := h1
        subst h1
        refine ⟨by simpa using hne, fun c hc => ?_⟩
        have hmem : c ∈ acc := List.mem_reverse.mp hc
        exact ⟨hacc c hmem, Or.inl hmem⟩
      | inr h2 =>
        obtain ⟨hne, hrest⟩ := ih [] (by intro c hc; cases hc) t h2
        refine ⟨hne, fun c hc => ?_⟩
        obtain ⟨hsp, hor⟩ := hrest c hc
        cases hor with
        | inl h => cases h
        | inr h => exact ⟨hsp, Or.inr (List.mem_cons_of_mem c0 h)⟩
    · have hacc' : ∀ c ∈ c0 :: acc, isPySpace c = false := by
        intro c hc
        cases List.mem_cons.mp hc with
        | inl he => rw [he]; simpa using hc0
        | inr hm => exact hacc c hm
      have ht' : t ∈ splitAux cs (c0 :: acc) := by
        simpa [splitAux, hc0] using ht
      obtain ⟨hne, hrest⟩ := ih (c0 :: acc) hacc' t ht'
      refine ⟨hne, fun c hc => ?_⟩
      obtain ⟨hsp, hor⟩ := hrest c hc
      refine ⟨hsp, ?_⟩
      cases hor with
      | inl h =>
        cases List.mem_cons.mp h with
        | inl he => exact Or.inr (he ▸ List.mem_cons_self c0 cs)
        | inr hm => exact Or.inl hm
      | inr h => exact Or.inr (List.mem_cons_of_mem c0 h)

theorem pySplit_tokens (cs : List Char) (t : List Char) (ht : t ∈ pySplit cs) :
    t ≠ [] ∧ ∀ c ∈ t, isPySpace c = false ∧ c ∈ cs := by
  obtain ⟨hne, hrest⟩ := splitAux_tokens cs [] (by intro c hc; cases hc) t ht
  refine ⟨hne, fun c hc => ?_⟩
  obtain ⟨hsp, hor⟩ := hrest c hc
  cases hor with
  | inl h => cases h
  | inr h => exact ⟨hsp, h⟩

theorem pySplit_all_nonspace (l : List Char)
    (h : ∀ c ∈ l, isPySpace c = false) :
    pySplit l = if l = [] then [] else [l] := by
  cases l with
  | nil => rfl
  | cons c cs =>
    rw [pySplit_cons_nonspace c cs (h c (List.mem_cons_self c cs))]
    have h1 : cs.takeWhile (fun x => !isPySpace x) = cs :=
      List.takeWhile_eq_self_iff.mpr fun x hx => by
        simp [h x (List.mem_cons_of_mem c hx)]
    have h2 : cs.dropWhile (fun x => !isPySpace x) = [] :=
      List.dropWhile_eq_nil_iff.mpr fun x hx => by
        simp [h x (List.mem_cons_of_mem c hx)]
    rw [h1, h2]
    simp [pySplit, splitAux]

theorem head_of_take (m : Nat) (l : List Char) (x : Char) (xs : List Char)
    (h : l.take m = x :: xs) : l.head? = some x := by
  cases l with
  | nil => rw [List.take_nil] at h; cases h
  | cons y ys =>
    cases m with
    | zero => cases h
    | succ m' =>
      rw [List.take_succ_cons] at h
      rw [List.head?_cons]
      exact congrArg some (List.head_eq_of_cons_eq h)

theorem joinSp_cons_head (u : List Char) (ts : List (List Char)) (hu : u ≠ []) :
    (joinSp (u :: ts)).head? = u.head? := by
  cases ts with
  | nil => rfl
  | cons v ts' =>
    rw [joinSp_cons_ne u (v :: ts') (List.cons_ne_nil v ts')]
    cases u with
    | nil => exact absurd rfl hu
    | cons c cu => rfl

/-- Token lists as produced by `pySplit`: nonempty, whitespace-free. -/
def goodToks (ts : List (List Char)) : Prop :=
  ∀ t ∈ ts, t ≠ [] ∧ ∀ c ∈ t, isPySpace c = false

theorem take_joinSp : ∀ (ts : List (List Char)), goodToks ts → ∀ (n : Nat),
    (((joinSp ts).take n).getLast? ≠ some ' ') →
    joinSp (pySplit ((joinSp ts).take n)) = (joinSp ts).take n := by
  intro ts
  induction ts with
  | nil => intro _ n _; simp [joinSp]
  | cons t ts ih =>
    intro hgood n hlast
    have htns : ∀ c ∈ t, isPySpace c = false :=
      (hgood t (List.mem_cons_self t ts)).2
    have htne : t ≠ [] := (hgood t (List.mem_cons_self t ts)).1
    have tokcase : ∀ m : Nat, joinSp (pySplit (t.take m)) = t.take m := by
      intro m
      have htk : ∀ c ∈ t.take m, isPySpace c = false :=
        fun c hc => htns c (List.take_subset m t hc)
      rw [pySplit_all_nonspace (t.take m) htk]
      by_cases he : t.take m = [] <;> simp [he, joinSp]
    cases ts with
    | nil => exact tokcase n
    | cons u ts' =>
      have hgood' : goodToks (u :: ts') :=
        fun v hv => hgood v (List.mem_cons_of_mem t hv)
      have hune : u ≠ [] := (hgood' u (List.mem_cons_self u ts')).1
      have hj : joinSp (t :: u :: ts') = t ++ ' ' :: joinSp (u :: ts') :=
        joinSp_cons_ne t (u :: ts') (List.cons_ne_nil u ts')
      rw [hj] at hlast ⊢
      set R := joinSp (u :: ts') with hR
      have hsg : (t ++ ' ' :: R).take n = t.take n ++ (' ' :: R).take (n - t.length) :=
        List.take_append_eq_append_take
      by_cases hn : n ≤ t.length
      · have h0 : n - t.length = 0 := Nat.sub_eq_zero_of_le hn
        rw [hsg, h0, List.take_zero, List.append_nil]
        exact tokcase n
      · obtain ⟨k, hk⟩ : ∃ k, n - t.length = k + 1 :=
          ⟨n - t.length - 1, by omega⟩
        have htfull : t.take n = t :=
          List.take_of_length_le (by omega)
        have hexp : (t ++ ' ' :: R).take n = t ++ ' ' :: R.take k := by
          rw [hsg, htfull, hk, List.take_succ_cons]
        rw [hexp] at hlast ⊢
        by_cases hRk : R.take k = []
        · rw [hRk] at hlast
          exact absurd (by simp : (t ++ [' ']).getLast? = some ' ') hlast
        · obtain ⟨x, xs, hxx⟩ : ∃ x xs, R.take k = x :: xs := by
            cases hc : R.take k with
            | nil => exact absurd hc hRk
            | cons x xs => exact ⟨x, xs, rfl⟩
          have hx : isPySpace x = false := by
            have hhead : R.head? = some x := head_of_take k R x xs hxx
            rw [hR, joinSp_cons_head u ts' hune] at hhead
            cases u with
            | nil => exact absurd rfl hune
            | cons cu tu =>
              have hcx : cu = x := by simpa using hhead
              exact hcx ▸ (hgood' (cu :: tu) (List.mem_cons_self _ _)).2 cu
                (List.mem_cons_self cu tu)
          rw [hxx] at hlast ⊢
          have hlast' : (R.take k).getLast? ≠ some ' ' := by
            rw [hxx]
            intro hcon
            apply hlast
            rw [show t ++ ' ' :: x :: xs = (t ++ [' ']) ++ x :: xs by simp]
            rw [List.getLast?_append_of_ne_nil (t ++ [' ']) (List.cons_ne_nil x xs)]
            exact hcon
          have hihres := ih hgood' k hlast'
          rw [hxx] at hihres
          rw [pySplit_append_space t (x :: xs),
            pySplit_all_nonspace t htns, if_neg htne,
            show ([t] : List (List Char)) ++ pySplit (x :: xs) =
              t :: pySplit (x :: xs) from rfl,
            joinSp_cons_ne t (pySplit (x :: xs)) (pySplit_ne_nil_of_head x xs hx),
            hihres]

/-- The input whose normalization is cut by the 500-character truncation
right after a space: 499 `a`s, a space, and a `b`. -/
def longTruncInput : String :=
  String.mk (List.replicate 499 'a' ++ [' ', 'b'])

set_option maxRecDepth 40000 in
/-- Counterexample to C7: normalizing 499 `a`s, a space and a `b` truncates
the collapsed text to 499 `a`s plus a trailing space; a second
normalization trims that trailing space, so `normalize` is not idempotent
on inputs whose normalized form is truncated right after a space. -/
theorem C7_counterexample :
    preprocess_text (some longTruncInput) =
      String.mk (List.replicate 499 'a' ++ [' ']) ∧
    preprocess_text (some (preprocess_text (some longTruncInput))) =
      String.mk (List.replicate 499 'a') ∧
    preprocess_text (some (preprocess_text (some longTruncInput))) ≠
      preprocess_text (some longTruncInput) := by
  refine ⟨by decide, by decide, by decide⟩

/-- C7 as amended: `normalize` is idempotent on every input whose
normalized form does not end in a space — in particular on every input
whose collapsed text is not cut by the length truncation immediately
after a space. (The counterexample shows the trailing-space case is a
genuine exception: the claim's unconditional idempotence, including
truncated inputs, fails.) -/
theorem C7_idempotent_no_trailing_space (x : Option String)
    (h : (preprocess_text x).toList.getLast? ≠ some ' ') :
    preprocess_text (some (preprocess_text x)) = preprocess_text x := by
  cases x with
  | none => rfl
  | some s =>
    by_cases hs : s = ""
    · subst hs; rfl
    · set z := subNonAlnum (s.toList.map pyLower) with hz
      set L := (joinSp (pySplit z)).take Config.MAX_TEXT_LENGTH with hL
      have hy : preprocess_text (some s) = String.mk L := by
        show (if s = "" then "" else
          String.mk (preprocessChars Config.MAX_TEXT_LENGTH s.toList)) = String.mk L
        rw [if_neg hs, preprocessChars_eq_take]
      have hyL : (preprocess_text (some s)).toList = L := by rw [hy]; rfl
      -- characterize the characters of the normalized string
      have hLchar : ∀ c ∈ L, c = ' ' ∨ (isPySpace c = false ∧ c ∈ z) := by
        intro c hc
        have hc' : c ∈ joinSp (pySplit z) := List.take_subset _ _ hc
        cases joinSp_chars (pySplit z) c hc' with
        | inl hex =>
          obtain ⟨t, hT, hct⟩ := hex
          obtain ⟨-, hrest⟩ := pySplit_tokens z t hT
          exact Or.inr ⟨(hrest c hct).1, (hrest c hct).2⟩
        | inr he => exact Or.inl he
      -- lower-casing is the identity on the normalized string
      have hmap : L.map pyLower = L := by
        apply map_fix_id
        intro c hc
        cases hLchar c hc with
        | inl he => rw [he]; rfl
        | inr hcz =>
          obtain ⟨hns, hcz⟩ := hcz
          cases subNonAlnum_map_pyLower_chars s.toList c (hz ▸ hcz) with
          | inl he => rw [he] at hns; cases hns
          | inr hex => obtain ⟨a, ha⟩ := hex; exact pyLower_of_pyLower_image c a ha
      -- the cleaning regex is the identity on the normalized string
      have hsub : subNonAlnum L = L := by
        apply subNonAlnum_id
        intro c hc
        cases hLchar c hc with
        | inl he => rw [he]; rfl
        | inr hcz => exact subNonAlnum_chars (s.toList.map pyLower) c (hz ▸ hcz.2)
      -- splitting and re-joining is the identity (no trailing space)
      have hgood : goodToks (pySplit z) := by
        intro t ht
        obtain ⟨hne, hrest⟩ := pySplit_tokens z t ht
        exact ⟨hne, fun c hc => (hrest c hc).1⟩
      have hjoin : joinSp (pySplit L) = L := by
        rw [hL]
        exact take_joinSp (pySplit z) hgood Config.MAX_TEXT_LENGTH (hL ▸ (hyL ▸ h))
      -- the second truncation is the identity
      have hlen : L.length ≤ Config.MAX_TEXT_LENGTH := by
        rw [hL, List.length_take]
        exact Nat.min_le_left _ _
      by_cases hy0 : preprocess_text (some s) = ""
      · rw [hy0]; rfl
      · rw [hy]
        rw [hy] at hy0
        show (if (String.mk L : String) = "" then "" else
            String.mk (preprocessChars Config.MAX_TEXT_LENGTH (String.mk L).toList)) =
          String.mk L
        rw [if_neg hy0, preprocessChars_eq_take]
        rw [show (String.mk L).toList = L from rfl]
        rw [hmap, hsub, hjoin]
        rw [List.take_of_length_le hlen]

/-- Witness for C7's amended theorem on a concrete short input. -/
theorem C7_witness :
    preprocess_text (some (preprocess_text (some "Hello,  World!"))) =
      preprocess_text (some "Hello,  World!") :=
  C7_idempotent_no_trailing_space (some "Hello,  World!") (by decide)
